import Mathlib

/-!
# Verification of the timesync availability / compromise-selection core

Shallow embedding of the repository's core algorithms:

* `src/lib/overlap.ts` — `calculateOverlap` (one-time and recurring modes),
  `formatSlotInTimezone`, `getTopOverlappingSlots`;
* `src/lib/ai.ts` — `getAISuggestion`, `generateAllPossibleSlots`,
  `calculateSlotScore`, `countAvailableParticipants`, `getLocalHour`,
  `getInconvenienceLevel`, `buildPrompt`.

Modelling conventions:
* A JavaScript `Date` is its millisecond timestamp, an `Int` (`Int`).
* The runtime environment's local time is modelled as UTC, so `getHours`,
  `getDay` and date-fns day arithmetic coincide with their UTC versions.
* An IANA timezone identifier is modelled as `Option Int`: a recognized zone
  carries its fixed UTC offset in minutes, `none` is an unrecognized or
  malformed identifier.  Per ECMA-402, `Intl.DateTimeFormat` (hence
  `toLocaleDateString` / `toLocaleTimeString` with a `timeZone` option, and
  `date-fns-tz`'s `toZonedTime`) throws a `RangeError` on an unrecognized
  identifier; fallible operations return `Except String _`, with `.error`
  standing for a thrown exception.
* JavaScript `Map` iteration order is insertion order; it is modelled as an
  association list where a fresh key is appended at the end.
* `Array.prototype.sort` is a stable sort whose comparator `c` puts `a`
  before `b` when `c a b < 0`; it is modelled by the stable insertion sort
  `jsSort` with the boolean relation `le a b := c a b ≤ 0` (the output of a
  stable sort is uniquely determined by the input and that relation).
-/

/- A JavaScript `Date` is represented by its millisecond timestamp, the
value of `Date.prototype.getTime()`, as a plain `Int`. -/

def msPerMinute : Int := 60000

def msPerHour : Int := 3600000

def msPerDay : Int := 86400000

/-- `TimeSlot` from `src/types/index.ts`; the TypeScript field `end` is a Lean
keyword and is rendered `stop`. -/
structure TimeSlot where
  start : Int
  stop : Int
  dayOfWeek : Option Nat := none
deriving DecidableEq, Repr

/-- `ParticipantWithAvailability` from `src/types/index.ts`; the `id` and
`email` fields are never read by the core algorithms and are omitted. -/
structure Participant where
  name : String
  timezone : Option Int
  availability : List TimeSlot
deriving DecidableEq, Repr

/-- `MeetingType` from `src/types/index.ts`. -/
inductive MeetingType where
  | ONE_TIME
  | RECURRING
deriving DecidableEq, Repr

/-- `OverlapResult` from `src/types/index.ts`. -/
structure OverlapResult where
  hasOverlap : Bool
  overlappingSlots : List TimeSlot
deriving DecidableEq, Repr

/-- `Date.prototype.getUTCHours` on a millisecond timestamp. -/
def getUTCHours (ms : Int) : Int :=
  (ms.ediv msPerHour).emod 24

/-- `Date.prototype.getUTCMinutes` on a millisecond timestamp. -/
def getUTCMinutes (ms : Int) : Int :=
  (ms.ediv msPerMinute).emod 60

/-- `Date.prototype.getDay` (weekday, 0 = Sunday) in the UTC-modelled
environment; the epoch 1970-01-01 was a Thursday (4). -/
def getDay (ms : Int) : Int :=
  (ms.ediv msPerDay + 4).emod 7

/-- `getLocalHour` from `src/lib/ai.ts`: `toZonedTime` shifts the instant by
the zone's offset and throws on an unrecognized zone; the `catch` branch
falls back to `date.getHours()`, the unzoned hour. -/
def getLocalHour (date : Int) (timezone : Option Int) : Int :=
  match timezone with
  | some offset => getUTCHours (date + offset * msPerMinute)
  | none => getUTCHours date

/-- The four inconvenience levels of `src/lib/ai.ts`. -/
inductive Inconvenience where
  | ideal
  | good
  | workable
  | difficult
deriving DecidableEq, Repr

/-- `getInconvenienceLevel` from `src/lib/ai.ts`. -/
def getInconvenienceLevel (slot : TimeSlot) (timezone : Option Int) :
    Inconvenience :=
  let localHour := getLocalHour slot.start timezone
  if 9 ≤ localHour ∧ localHour ≤ 17 then .ideal
  else if 8 ≤ localHour ∧ localHour ≤ 20 then .good
  else if 6 ≤ localHour ∧ localHour ≤ 22 then .workable
  else .difficult

/-! ## A stable sort

`Array.prototype.sort` is required to be stable, and the output of a stable
sort is uniquely determined by the input and the comparator's total
preorder; it is modelled by a stable insertion sort, which is structurally
recursive and hence evaluable by the kernel. -/

/-- Insert `x` into `l`, before the first element `y` with `le x y`.  When
`l` is sorted and `x` precedes the elements of `l` in the original list,
this is the stable position. -/
def insertSorted (le : α → α → Bool) (x : α) : List α → List α
  | [] => [x]
  | y :: ys => if le x y then x :: y :: ys else y :: insertSorted le x ys

/-- Stable insertion sort, modelling `Array.prototype.sort` with a
consistent comparator `c` via `le a b := c a b ≤ 0`. -/
def jsSort (le : α → α → Bool) : List α → List α
  | [] => []
  | x :: xs => insertSorted le x (jsSort le xs)

/-! ## Overlap engine (`src/lib/overlap.ts`) -/

/-- One step of filling the JS `Map<number, number>` of `calculateOverlap`:
`allSlots.set(t, (allSlots.get(t) || 0) + 1)`.  A fresh key is appended at
the end, matching `Map` insertion order. -/
def bumpCount : List (Int × Nat) → Int → List (Int × Nat)
  | [], t => [(t, 1)]
  | (k, c) :: rest, t =>
    if k = t then (k, c + 1) :: rest else (k, c) :: bumpCount rest t

/-- The `Map` of `calculateOverlap` after both `forEach` loops: for every
availability slot of every participant, bump the count at
`new Date(slot.start).getTime()`. -/
def oneTimeCounts (participants : List Participant) : List (Int × Nat) :=
  participants.foldl
    (fun m participant =>
      participant.availability.foldl (fun m slot => bumpCount m slot.start) m)
    []

/-- The `overlappingSlots` array of `calculateOverlap` before sorting and
merging: timestamps whose count equals the participant count, materialized
as `[timestamp, timestamp + slotDuration minutes]`. -/
def oneTimePreMerge (participants : List Participant) (slotDuration : Int) :
    List TimeSlot :=
  (oneTimeCounts participants).filterMap fun (timestamp, count) =>
    if count = participants.length then
      some { start := timestamp,
             stop := timestamp + slotDuration * msPerMinute }
    else none

/-- The comparator `(a, b) => a.start.getTime() - b.start.getTime()` as a
boolean `le` relation for the stable sort. -/
def slotLE (a b : TimeSlot) : Bool :=
  decide (a.start ≤ b.start)

/-- The body of the `calculateOverlap` merge loop once a current slot is in
hand: when the accumulated slot's `end` equals the next slot's `start`, the
accumulated slot's `end` is replaced, else the accumulated slot is emitted. -/
def mergeRun (cur : TimeSlot) : List TimeSlot → List TimeSlot
  | [] => [cur]
  | slot :: rest =>
    if cur.stop = slot.start then mergeRun { cur with stop := slot.stop } rest
    else cur :: mergeRun slot rest

/-- The `Merge consecutive slots` loop of `calculateOverlap`. -/
def mergeSlots : List TimeSlot → List TimeSlot
  | [] => []
  | slot :: rest => mergeRun slot rest

/-- The two-or-more-participants ONE_TIME branch of `calculateOverlap`. -/
def oneTimeOverlap (participants : List Participant) (slotDuration : Int) :
    OverlapResult :=
  let mergedSlots :=
    mergeSlots (jsSort slotLE (oneTimePreMerge participants slotDuration))
  { hasOverlap := decide (0 < mergedSlots.length),
    overlappingSlots := mergedSlots }

/-- The recurring matching day: `slot.dayOfWeek ?? new Date(slot.start).getDay()`. -/
def recurringDay (slot : TimeSlot) : Nat :=
  match slot.dayOfWeek with
  | some d => d
  | none => (getDay slot.start).toNat

/-- The recurring matching key; the template string
`dayOfWeek-hours-minutes` is injective on its components and is modelled as
the triple itself. -/
def recurringKey (slot : TimeSlot) : Nat × Int × Int :=
  (recurringDay slot, getUTCHours slot.start, getUTCMinutes slot.start)

/-- One step of filling the `Map<string, {count, slot}>` of
`calculateRecurringOverlap`: a fresh key stores count 1 together with
`{ ...slot, dayOfWeek }`; a seen key only has its count bumped. -/
def bumpRecurring :
    List ((Nat × Int × Int) × Nat × TimeSlot) → TimeSlot →
    List ((Nat × Int × Int) × Nat × TimeSlot)
  | [], slot =>
    [(recurringKey slot, 1, { slot with dayOfWeek := some (recurringDay slot) })]
  | (k, count, stored) :: rest, slot =>
    if k = recurringKey slot then (k, count + 1, stored) :: rest
    else (k, count, stored) :: bumpRecurring rest slot

/-- The `Map` of `calculateRecurringOverlap` after both `forEach` loops. -/
def recurringCounts (participants : List Participant) :
    List ((Nat × Int × Int) × Nat × TimeSlot) :=
  participants.foldl
    (fun m participant => participant.availability.foldl bumpRecurring m)
    []

/-- The `overlappingSlots` array of `calculateRecurringOverlap` before
sorting and merging. -/
def recurringPreMerge (participants : List Participant) : List TimeSlot :=
  (recurringCounts participants).filterMap fun (_, count, slot) =>
    if count = participants.length then some slot else none

/-- The recurring sort comparator: ascending `dayOfWeek ?? 0`, then
ascending start, as a boolean `le` relation. -/
def recurringSlotLE (a b : TimeSlot) : Bool :=
  let dayA := a.dayOfWeek.getD 0
  let dayB := b.dayOfWeek.getD 0
  decide (dayA < dayB ∨ (dayA = dayB ∧ a.start ≤ b.start))

/-- The recurring merge loop body: adjacency additionally requires equal
`dayOfWeek`. -/
def mergeRunRecurring (cur : TimeSlot) : List TimeSlot → List TimeSlot
  | [] => [cur]
  | slot :: rest =>
    if cur.dayOfWeek = slot.dayOfWeek ∧ cur.stop = slot.start then
      mergeRunRecurring { cur with stop := slot.stop } rest
    else cur :: mergeRunRecurring slot rest

/-- The `Merge consecutive slots within the same day` loop of
`calculateRecurringOverlap`. -/
def mergeSlotsRecurring : List TimeSlot → List TimeSlot
  | [] => []
  | slot :: rest => mergeRunRecurring slot rest

/-- `calculateRecurringOverlap` from `src/lib/overlap.ts`; its
`slotDuration` argument is never read. -/
def calculateRecurringOverlap (participants : List Participant)
    (_slotDuration : Int) : OverlapResult :=
  let mergedSlots :=
    mergeSlotsRecurring
      (jsSort recurringSlotLE (recurringPreMerge participants))
  { hasOverlap := decide (0 < mergedSlots.length),
    overlappingSlots := mergedSlots }

/-- `calculateOverlap` from `src/lib/overlap.ts`. -/
def calculateOverlap (participants : List Participant) (slotDuration : Int)
    (meetingType : MeetingType := .ONE_TIME) : OverlapResult :=
  match participants with
  | [] => { hasOverlap := false, overlappingSlots := [] }
  | [participant] =>
    { hasOverlap := true, overlappingSlots := participant.availability }
  | p₀ :: p₁ :: rest =>
    if meetingType = .RECURRING then
      calculateRecurringOverlap (p₀ :: p₁ :: rest) slotDuration
    else oneTimeOverlap (p₀ :: p₁ :: rest) slotDuration

/-! ## Presentation formatter (`src/lib/overlap.ts`) -/

def DAY_NAMES : List String :=
  ["Sunday", "Monday", "Tuesday", "Wednesday", "Thursday", "Friday",
   "Saturday"]

def MONTH_NAMES : List String :=
  ["Jan", "Feb", "Mar", "Apr", "May", "Jun", "Jul", "Aug", "Sep", "Oct",
   "Nov", "Dec"]

/-- Proleptic-Gregorian (year, month, day) of a day number counted from
1970-01-01 (Howard Hinnant's `civil_from_days`). -/
def civilFromDays (z : Int) : Int × Int × Int :=
  let z := z + 719468
  let era := z.ediv 146097
  let doe := z - era * 146097
  let yoe := (doe - doe.ediv 1460 + doe.ediv 36524 - doe.ediv 146096).ediv 365
  let y := yoe + era * 400
  let doy := doe - (365 * yoe + yoe.ediv 4 - yoe.ediv 100)
  let mp := (5 * doy + 2).ediv 153
  let d := doy - (153 * mp + 2).ediv 5 + 1
  let m := mp + (if mp < 10 then 3 else -9)
  (if m ≤ 2 then y + 1 else y, m, d)

def pad2 (n : Int) : String :=
  if n < 10 then "0" ++ toString n else toString n

/-- An `en-US` 12-hour clock rendition, `h:mm AM/PM`, of the wall-clock time
of a shifted timestamp. -/
def renderTime12h (ms : Int) : String :=
  let h := getUTCHours ms
  let m := getUTCMinutes ms
  let h12 := if h.emod 12 = 0 then 12 else h.emod 12
  let suffix := if h < 12 then "AM" else "PM"
  toString h12 ++ ":" ++ pad2 m ++ " " ++ suffix

/-- An `en-US` `weekday: long, month: short, day: numeric` rendition of the
wall-clock date of a shifted timestamp. -/
def renderDateLong (ms : Int) : String :=
  let day := ms.ediv msPerDay
  let (_, m, d) := civilFromDays day
  let weekday := DAY_NAMES.getD (getDay ms).toNat ""
  let monthName := MONTH_NAMES.getD (m - 1).toNat ""
  weekday ++ ", " ++ monthName ++ " " ++ toString d

/-- `Date.prototype.toLocaleTimeString('en-US', {timeZone, hour: 'numeric',
minute: '2-digit', hour12: true})`.  Per ECMA-402 the underlying
`Intl.DateTimeFormat` constructor throws a `RangeError` when the `timeZone`
identifier is unrecognized; `.error` models the thrown exception. -/
def toLocaleTimeString (ms : Int) (timezone : Option Int) :
    Except String String :=
  match timezone with
  | none => .error "RangeError: Invalid time zone specified"
  | some offset => .ok (renderTime12h (ms + offset * msPerMinute))

/-- `Date.prototype.toLocaleDateString('en-US', {timeZone, weekday: 'long',
month: 'short', day: 'numeric'})`; throws like `toLocaleTimeString`. -/
def toLocaleDateString (ms : Int) (timezone : Option Int) :
    Except String String :=
  match timezone with
  | none => .error "RangeError: Invalid time zone specified"
  | some offset => .ok (renderDateLong (ms + offset * msPerMinute))

/-- The record returned by `formatSlotInTimezone`. -/
structure FormattedSlot where
  date : String
  startTime : String
  endTime : String
deriving DecidableEq, Repr

/-- `formatSlotInTimezone` from `src/lib/overlap.ts`.  It calls the
`toLocale*String` functions with the given timezone directly, with no
`try`/`catch`, so an unrecognized identifier's `RangeError` propagates. -/
def formatSlotInTimezone (slot : TimeSlot) (timezone : Option Int)
    (isRecurring : Bool := false) : Except String FormattedSlot :=
  if isRecurring ∧ slot.dayOfWeek.isSome then
    match toLocaleTimeString slot.start timezone,
        toLocaleTimeString slot.stop timezone with
    | .error e, _ => .error e
    | .ok _, .error e => .error e
    | .ok startTime, .ok endTime =>
      .ok { date := "Every " ++ DAY_NAMES.getD (slot.dayOfWeek.getD 0) "undefined",
            startTime, endTime }
  else
    match toLocaleDateString slot.start timezone,
        toLocaleTimeString slot.start timezone,
        toLocaleTimeString slot.stop timezone with
    | .error e, _, _ => .error e
    | .ok _, .error e, _ => .error e
    | .ok _, .ok _, .error e => .error e
    | .ok date, .ok startTime, .ok endTime => .ok { date, startTime, endTime }

/-- The `getTopOverlappingSlots` comparator — descending duration, ties by
ascending start — as a boolean `le` relation. -/
def topSlotLE (a b : TimeSlot) : Bool :=
  let durationA := a.stop - a.start
  let durationB := b.stop - b.start
  decide (durationB < durationA ∨ (durationA = durationB ∧ a.start ≤ b.start))

/-- `getTopOverlappingSlots` from `src/lib/overlap.ts`. -/
def getTopOverlappingSlots (overlappingSlots : List TimeSlot)
    (limit : Nat := 3) : List TimeSlot :=
  (jsSort topSlotLE overlappingSlots).take limit

/-! ## Compromise selector (`src/lib/ai.ts`) -/

/-- `date-fns` `startOfDay` in the UTC-modelled environment. -/
def startOfDay (ms : Int) : Int :=
  ms.ediv msPerDay * msPerDay

/-- `date-fns` `eachDayOfInterval`: the start of each calendar day from the
start of `startDate`'s day, stepping one day while not past `endDate`.
(`date-fns` throws a `RangeError` for `startDate > endDate`; the claims only
concern non-degenerate ranges, where the loop below is exact.) -/
def eachDayOfInterval (startDate endDate : Int) : List Int :=
  let d₀ := startOfDay startDate
  if d₀ ≤ endDate then
    (List.range ((endDate - d₀).ediv msPerDay).toNat.succ).map
      fun k => d₀ + k * msPerDay
  else []

/-- The `minute` loop values `0, slotDuration, 2·slotDuration, … < 60` of
`generateAllPossibleSlots`.  (For `slotDuration ≤ 0` the JavaScript loop
would not terminate; the claims assume a positive duration, and the model
returns `[]` there.) -/
def minuteSteps (slotDuration : Int) : List Int :=
  if 0 < slotDuration then
    (List.range ((59 : Int).ediv slotDuration).toNat.succ).map
      fun k => k * slotDuration
  else []

/-- `generateAllPossibleSlots` from `src/lib/ai.ts`: every slot of
`slotDuration` minutes starting on the duration grid between 08:00 and
21:00 (exclusive) of every day in the range.  `setHours`/`setMinutes` on a
midnight timestamp add the hour and minute in the UTC-modelled local time. -/
def generateAllPossibleSlots (startDate endDate : Int)
    (slotDuration : Int) : List TimeSlot :=
  (eachDayOfInterval startDate endDate).flatMap fun day =>
    ((List.range 13).map fun h => (h : Int) + 8).flatMap fun hour =>
      (minuteSteps slotDuration).map fun minute =>
        let slotStart := day + hour * msPerHour + minute * msPerMinute
        { start := slotStart, stop := slotStart + slotDuration * msPerMinute }

/-- The availability test shared by `calculateSlotScore` and
`countAvailableParticipants`: some availability entry fully contains the
candidate (`slot.start >= avail.start && slot.end <= avail.end`). -/
def isAvailableFor (slot : TimeSlot) (participant : Participant) : Bool :=
  participant.availability.any fun avail =>
    decide (avail.start ≤ slot.start) && decide (slot.stop ≤ avail.stop)

/-- `calculateSlotScore` from `src/lib/ai.ts`: a single score accumulator
over the participant loop, +10 when available, plus the local-hour
convenience bonus for every participant. -/
def calculateSlotScore (slot : TimeSlot) (participants : List Participant) :
    Int :=
  participants.foldl
    (fun score participant =>
      let score := if isAvailableFor slot participant then score + 10 else score
      let localHour := getLocalHour slot.start participant.timezone
      if 9 ≤ localHour ∧ localHour ≤ 17 then score + 5
      else if 8 ≤ localHour ∧ localHour ≤ 20 then score + 3
      else if 6 ≤ localHour ∧ localHour ≤ 22 then score + 1
      else score)
    0

/-- `countAvailableParticipants` from `src/lib/ai.ts`. -/
def countAvailableParticipants (slot : TimeSlot)
    (participants : List Participant) : Nat :=
  (participants.filter fun participant => isAvailableFor slot participant).length

/-- An element of the `scoredSlots` array of `getAISuggestion`. -/
structure ScoredSlot where
  slot : TimeSlot
  score : Int
  availableCount : Nat
deriving DecidableEq, Repr

/-- The `scoredSlots` comparator — descending `availableCount`, ties by
descending `score` — as a boolean `le` relation. -/
def candidateLE (a b : ScoredSlot) : Bool :=
  decide (b.availableCount < a.availableCount ∨
    (a.availableCount = b.availableCount ∧ b.score ≤ a.score))

/-- The `scoredSlots` array of `getAISuggestion` before sorting. -/
def scoredCandidates (participants : List Participant) (slotDuration : Int)
    (dateRangeStart dateRangeEnd : Int) : List ScoredSlot :=
  (generateAllPossibleSlots dateRangeStart dateRangeEnd slotDuration).map
    fun slot =>
      { slot,
        score := calculateSlotScore slot participants,
        availableCount := countAvailableParticipants slot participants }

/-- The `scoredSlots` array of `getAISuggestion` after the in-place sort. -/
def rankedCandidates (participants : List Participant) (slotDuration : Int)
    (dateRangeStart dateRangeEnd : Int) : List ScoredSlot :=
  jsSort candidateLE
    (scoredCandidates participants slotDuration dateRangeStart dateRangeEnd)

/-- The `topCandidates` array of `getAISuggestion`. -/
def topCandidates (participants : List Participant) (slotDuration : Int)
    (dateRangeStart dateRangeEnd : Int) : List ScoredSlot :=
  (rankedCandidates participants slotDuration dateRangeStart dateRangeEnd).take 5

/-- One entry of `participantImpact`. -/
structure ParticipantImpact where
  name : String
  localTime : String
  inconvenienceLevel : Inconvenience
deriving DecidableEq, Repr

/-- `AISuggestion` from `src/types/index.ts`. -/
structure AISuggestion where
  suggestedTime : TimeSlot
  reasoning : String
  participantImpact : List ParticipantImpact
deriving DecidableEq, Repr

/-- The observable outcome of the single `openai.chat.completions.create`
round-trip inside `getAISuggestion`:
* `unreachable` — the call throws (network error, timeout, HTTP failure);
* `noContent` — it resolves but `choices[0]?.message?.content` is missing
  or empty;
* `badJSON` — the content is present but `JSON.parse` throws;
* `choice idx reasoning impact` — the content parses to an object with
  `selectedSlotIndex = idx` and the given reasoning and impact list. -/
inductive AIOutcome where
  | unreachable
  | noContent
  | badJSON
  | choice (selectedSlotIndex : Int) (reasoning : String)
      (participantImpact : List ParticipantImpact)
deriving DecidableEq, Repr

/-- `list[idx]` for a JavaScript (possibly negative) index. -/
def listGetInt (l : List α) (idx : Int) : Option α :=
  if 0 ≤ idx then l.get? idx.toNat else none

/-- `Array.prototype.map` with a callback that can throw: the first thrown
exception aborts the whole map. -/
def exceptMapM (f : α → Except ε β) : List α → Except ε (List β)
  | [] => .ok []
  | x :: xs =>
    match f x with
    | .error e => .error e
    | .ok y =>
      match exceptMapM f xs with
      | .error e => .error e
      | .ok ys => .ok (y :: ys)

/-- The per-participant impact list built locally by both fallbacks of
`getAISuggestion`; propagates the `RangeError` of `formatSlotInTimezone`. -/
def localImpacts (slot : TimeSlot) (participants : List Participant) :
    Except String (List ParticipantImpact) :=
  exceptMapM
    (fun p =>
      match formatSlotInTimezone slot p.timezone with
      | .error e => .error e
      | .ok formatted =>
        .ok { name := p.name,
              localTime := formatted.startTime ++ " - " ++ formatted.endTime,
              inconvenienceLevel := getInconvenienceLevel slot p.timezone })
    participants

/-- The timezone label shown in the prompt's participant summary; the model
keeps the offset's textual form. -/
def timezoneLabel : Option Int → String
  | some offset => "UTC offset " ++ toString offset ++ " min"
  | none => "unrecognized zone"

/-- `date-fns` `format(date, 'yyyy-MM-dd HH:mm')` in the UTC-modelled
environment. -/
def formatYMDHM (ms : Int) : String :=
  let (y, mo, d) := civilFromDays (ms.ediv msPerDay)
  toString y ++ "-" ++ pad2 mo ++ "-" ++ pad2 d ++ " " ++
    pad2 (getUTCHours ms) ++ ":" ++ pad2 (getUTCMinutes ms)

/-- One candidate block of the prompt of `buildPrompt`; renders the
candidate in every participant's local time via `formatSlotInTimezone`, so
it propagates the `RangeError` of an unrecognized participant timezone. -/
def renderCandidate (participants : List Participant) :
    Nat × ScoredSlot → Except String String :=
  fun (i, c) =>
    match exceptMapM
        (fun p =>
          match formatSlotInTimezone c.slot p.timezone with
          | .error e => .error e
          | .ok formatted =>
            .ok ("  " ++ p.name ++ ": " ++ formatted.startTime ++ " - " ++
              formatted.endTime))
        participants with
    | .error e => .error e
    | .ok localTimes =>
      .ok ("Candidate " ++ toString i ++ ":\nUTC Time: " ++
        formatYMDHM c.slot.start ++ "\nAvailable: " ++
        toString c.availableCount ++ "/" ++ toString participants.length ++
        " participants\nLocal times:\n" ++ String.intercalate "\n" localTimes)

/-- `buildPrompt` from `src/lib/ai.ts`. -/
def buildPrompt (participants : List Participant)
    (candidates : List ScoredSlot) (slotDuration : Int) :
    Except String String :=
  let participantInfo := String.intercalate "\n" <| participants.map fun p =>
    "- " ++ p.name ++ " (" ++ timezoneLabel p.timezone ++ "): " ++
      toString p.availability.length ++ " available slots"
  match exceptMapM (renderCandidate participants) candidates.enum with
  | .error e => .error e
  | .ok candidateInfo =>
    .ok ("Please analyze these potential meeting times and suggest the best one.\n\nParticipants:\n"
      ++ participantInfo ++ "\n\nMeeting duration: " ++ toString slotDuration ++
      " minutes\n\nTop candidates:\n" ++
      String.intercalate "\n\n" candidateInfo ++
      "\n\nPlease select the best candidate and explain your reasoning.")

/-- The `try` block of `getAISuggestion`; `.error` models a thrown
exception that control passes to the `catch` block. -/
def getAISuggestionTry (participants : List Participant) (slotDuration : Int)
    (dateRangeStart dateRangeEnd : Int) (outcome : AIOutcome) :
    Except String (Option AISuggestion) :=
  let tops := topCandidates participants slotDuration dateRangeStart dateRangeEnd
  if tops.isEmpty then .ok none
  else
    match buildPrompt participants tops slotDuration with
    | .error e => .error e
    | .ok _prompt =>
      match outcome with
      | .unreachable => .error "APIConnectionError"
      | .noContent => .ok none
      | .badJSON => .error "SyntaxError: Unexpected token in JSON"
      | .choice selectedSlotIndex reasoning participantImpact =>
        match listGetInt tops selectedSlotIndex with
        | some selected =>
          .ok (some { suggestedTime := selected.slot, reasoning,
                      participantImpact })
        | none =>
          match tops.head? with
          | none => .ok none
          | some fallback =>
            match localImpacts fallback.slot participants with
            | .error e => .error e
            | .ok impacts =>
              .ok (some { suggestedTime := fallback.slot,
                          reasoning := "This time has the most participants available.",
                          participantImpact := impacts })

/-- The `catch` block of `getAISuggestion`: regenerate the candidate
universe, pick the slot with the highest `countAvailableParticipants`, and
build the impact list locally.  A `RangeError` thrown here (unrecognized
participant timezone in `formatSlotInTimezone`) propagates to the caller. -/
def getAISuggestionCatch (participants : List Participant)
    (slotDuration : Int) (dateRangeStart dateRangeEnd : Int) :
    Except String (Option AISuggestion) :=
  let allSlots := generateAllPossibleSlots dateRangeStart dateRangeEnd slotDuration
  let counted := allSlots.map fun slot =>
    (slot, countAvailableParticipants slot participants)
  match (jsSort (fun a b => decide (b.2 ≤ a.2)) counted).head? with
  | none => .ok none
  | some bestSlot =>
    match localImpacts bestSlot.1 participants with
    | .error e => .error e
    | .ok impacts =>
      .ok (some { suggestedTime := bestSlot.1,
                  reasoning := "This time has the most participants available.",
                  participantImpact := impacts })

/-- `getAISuggestion` from `src/lib/ai.ts`: the `try` block, with any
exception it throws handled by the `catch` block. -/
def getAISuggestion (participants : List Participant) (slotDuration : Int)
    (dateRangeStart dateRangeEnd : Int) (outcome : AIOutcome) :
    Except String (Option AISuggestion) :=
  match getAISuggestionTry participants slotDuration dateRangeStart
      dateRangeEnd outcome with
  | .ok v => .ok v
  | .error _ =>
    getAISuggestionCatch participants slotDuration dateRangeStart dateRangeEnd

/-- Modelled from the spec's words (section 4.3 step 2): the per-participant
convenience bonus added to the score accumulator regardless of
availability. -/
def convenienceBonus (slot : TimeSlot) (p : Participant) : Int :=
  let h := getLocalHour slot.start p.timezone
  if 9 ≤ h ∧ h ≤ 17 then 5
  else if 8 ≤ h ∧ h ≤ 20 then 3
  else if 6 ≤ h ∧ h ≤ 22 then 1
  else 0

/-- Modelled from the spec's words: the score as a sum over participants of
the availability component (10 when the candidate is fully contained in an
availability entry, else 0) plus the convenience bonus. -/
def specSlotScore (slot : TimeSlot) (participants : List Participant) : Int :=
  (participants.map fun p =>
    (if isAvailableFor slot p then (10 : Int) else 0) +
      convenienceBonus slot p).sum

/-- `allSlots.get(t) || 0`: the count stored at the first entry for `t`. -/
def lookupCount : List (Int × Nat) → Int → Nat
  | [], _ => 0
  | (k, c) :: rest, t => if k = t then c else lookupCount rest t

/-- The start timestamps of all availability entries of all participants,
in traversal order. -/
def startsOf (participants : List Participant) : List Int :=
  participants.flatMap fun p => p.availability.map (·.start)

/-- The count stored at the first entry for key `x` in the recurring map. -/
def lookupRecCount :
    List ((Nat × Int × Int) × Nat × TimeSlot) → (Nat × Int × Int) → Nat
  | [], _ => 0
  | (k, c, _) :: rest, x => if k = x then c else lookupRecCount rest x

/-- All availability slots of all participants, in traversal order. -/
def slotsOf (participants : List Participant) : List TimeSlot :=
  participants.flatMap (·.availability)

/-- The recurring matching keys of all availability slots of all
participants. -/
def allRecurringKeys (participants : List Participant) :
    List (Nat × Int × Int) :=
  (slotsOf participants).map recurringKey

/-! ## Sorting lemmas -/

theorem insertSorted_perm (le : α → α → Bool) (x : α) (l : List α) :
    List.Perm (insertSorted le x l) (x :: l) := by
  induction l with
  | nil => rfl
  | cons y ys ih =>
    simp only [insertSorted]
    split
    · rfl
    · exact (ih.cons y).trans (List.Perm.swap x y ys)

theorem jsSort_perm (le : α → α → Bool) (l : List α) :
    List.Perm (jsSort le l) l := by
  induction l with
  | nil => rfl
  | cons x xs ih =>
    exact (insertSorted_perm le x (jsSort le xs)).trans (ih.cons x)

theorem mem_insertSorted {le : α → α → Bool} {x a : α} {l : List α} :
    a ∈ insertSorted le x l ↔ a = x ∨ a ∈ l := by
  rw [(insertSorted_perm le x l).mem_iff, List.mem_cons]

theorem mem_jsSort {le : α → α → Bool} {a : α} {l : List α} :
    a ∈ jsSort le l ↔ a ∈ l :=
  (jsSort_perm le l).mem_iff

theorem pairwise_insertSorted {le : α → α → Bool}
    (total : ∀ a b, le a b = true ∨ le b a = true)
    (trans : ∀ a b c, le a b = true → le b c = true → le a c = true)
    {x : α} {l : List α} (h : l.Pairwise (le · ·)) :
    (insertSorted le x l).Pairwise (le · ·) := by
  induction l with
  | nil => simp [insertSorted]
  | cons y ys ih =>
    rw [List.pairwise_cons] at h
    by_cases hxy : le x y = true
    · rw [insertSorted, if_pos hxy]
      refine List.Pairwise.cons ?_ (List.Pairwise.cons h.1 h.2)
      intro a ha
      rcases List.mem_cons.mp ha with h₁ | h₁
      · subst h₁; exact hxy
      · exact trans x y a hxy (h.1 a h₁)
    · rw [insertSorted, if_neg hxy]
      refine List.Pairwise.cons ?_ (ih h.2)
      intro a ha
      rcases mem_insertSorted.mp ha with h₁ | h₁
      · subst h₁
        rcases total y a with h₂ | h₂
        · exact h₂
        · exact absurd h₂ hxy
      · exact h.1 a h₁

theorem pairwise_jsSort {le : α → α → Bool}
    (total : ∀ a b, le a b = true ∨ le b a = true)
    (trans : ∀ a b c, le a b = true → le b c = true → le a c = true)
    (l : List α) : (jsSort le l).Pairwise (le · ·) := by
  induction l with
  | nil => exact List.Pairwise.nil
  | cons x xs ih => exact pairwise_insertSorted total trans ih

example : getUTCHours (13 * msPerHour) = 13 := by decide

example : getInconvenienceLevel ⟨13 * msPerHour, 14 * msPerHour, none⟩ (some 0)
    = .ideal := by decide

example :
    calculateOverlap
      [⟨"A", some 0, [⟨0, 900000, none⟩, ⟨900000, 1800000, none⟩]⟩,
       ⟨"B", some 60, [⟨900000, 1800000, none⟩, ⟨0, 900000, none⟩]⟩] 15
    = { hasOverlap := true, overlappingSlots := [⟨0, 1800000, none⟩] } := by
  decide

example :
    getAISuggestion [⟨"Alice", some 0, [⟨28800000, 32400000, none⟩]⟩] 60 0 0
      .noContent = .ok none := by rfl

example :
    (getAISuggestion [⟨"Alice", some 0, [⟨28800000, 32400000, none⟩]⟩] 60 0 0
      .unreachable).isOk = true := by rfl

/-! ## Merge-loop lemmas -/

theorem mergeRun_head_start (cur : TimeSlot) (l : List TimeSlot) :
    ∃ e t, mergeRun cur l = e :: t ∧ e.start = cur.start := by
  induction l generalizing cur with
  | nil => exact ⟨cur, [], rfl, rfl⟩
  | cons s rest ih =>
    simp only [mergeRun]
    split
    · obtain ⟨e, t, he, hs⟩ := ih { cur with stop := s.stop }
      exact ⟨e, t, he, hs⟩
    · exact ⟨cur, mergeRun s rest, rfl, rfl⟩

theorem mergeRun_chain (cur : TimeSlot) (l : List TimeSlot) :
    List.Chain' (fun a b => a.stop ≠ b.start) (mergeRun cur l) := by
  induction l generalizing cur with
  | nil => simp [mergeRun]
  | cons s rest ih =>
    simp only [mergeRun]
    split
    · exact ih { cur with stop := s.stop }
    · obtain ⟨e, t, he, hs⟩ := mergeRun_head_start s rest
      rw [he]
      refine List.Chain'.cons ?_ (he ▸ ih s)
      rw [hs]
      assumption

theorem mergeRun_eq_of_chain (cur : TimeSlot) (l : List TimeSlot)
    (h : List.Chain' (fun a b => a.stop ≠ b.start) (cur :: l)) :
    mergeRun cur l = cur :: l := by
  induction l generalizing cur with
  | nil => rfl
  | cons s rest ih =>
    simp only [mergeRun]
    rw [if_neg (List.chain'_cons.mp h).1, ih s (List.chain'_cons.mp h).2]

theorem mergeSlots_eq_of_chain (l : List TimeSlot)
    (h : List.Chain' (fun a b => a.stop ≠ b.start) l) : mergeSlots l = l := by
  cases l with
  | nil => rfl
  | cons s rest => exact mergeRun_eq_of_chain s rest h

theorem mergeSlots_chain (l : List TimeSlot) :
    List.Chain' (fun a b => a.stop ≠ b.start) (mergeSlots l) := by
  cases l with
  | nil => simp [mergeSlots]
  | cons s rest => exact mergeRun_chain s rest

/-! ## Claim C7 -/

/-- C7: the slot-merge step of `calculateOverlap` is idempotent — for every
list of slots sorted by start, merging an already-merged result returns it
unchanged. -/
theorem mergeSlots_idempotent (l : List TimeSlot)
    (_hsorted : l.Pairwise fun a b => a.start ≤ b.start) :
    mergeSlots (mergeSlots l) = mergeSlots l :=
  mergeSlots_eq_of_chain (mergeSlots l) (mergeSlots_chain l)

/-- Witness for C7 at the spec's example `[10:00,10:15)`, `[10:15,10:30)`
(which merge into `[10:00,10:30)`). -/
theorem mergeSlots_idempotent_witness :
    ([⟨36000000, 36900000, none⟩, ⟨36900000, 37800000, none⟩] :
        List TimeSlot).Pairwise (fun a b => a.start ≤ b.start) ∧
      mergeSlots (mergeSlots
          [⟨36000000, 36900000, none⟩, ⟨36900000, 37800000, none⟩])
        = mergeSlots
          [⟨36000000, 36900000, none⟩, ⟨36900000, 37800000, none⟩] :=
  ⟨by decide,
   mergeSlots_idempotent
     [⟨36000000, 36900000, none⟩, ⟨36900000, 37800000, none⟩] (by decide)⟩

/-! ## Claim C10 -/

/-- C10: for a single participant with empty availability,
`calculateOverlap` reports `hasOverlap = true` with an empty slot list, so
`hasOverlap = true` does not imply a non-empty result. -/
theorem calculateOverlap_singleton_empty (name : String)
    (timezone : Option Int) (slotDuration : Int) (meetingType : MeetingType) :
    calculateOverlap [⟨name, timezone, []⟩] slotDuration meetingType
      = { hasOverlap := true, overlappingSlots := [] } := rfl

/-! ## Claim C3 -/

/-- C3 counterexample: the claim maps local hour 7 to `good`, but 7 is not
in the good range [8,20]; the code classifies hour 7 as `workable`
(7 lies in [6,22] only). -/
theorem getInconvenienceLevel_hour7_not_good :
    getInconvenienceLevel ⟨7 * msPerHour, 8 * msPerHour, none⟩ (some 0)
        = .workable ∧
      getInconvenienceLevel ⟨7 * msPerHour, 8 * msPerHour, none⟩ (some 0)
        ≠ .good := by decide

/-- C3 (amended: local hour 7 maps to `workable`, not `good`): the
convenience tier is `ideal` exactly for local hours in [9,17], `good`
exactly for [8,20] and not ideal, `workable` exactly for [6,22] and not
good/ideal, `difficult` otherwise, boundaries inclusive; in particular
local hour 13 is ideal, 7 workable, 5 difficult, 21 workable, 17 ideal and
18 good. -/
theorem getInconvenienceLevel_thresholds (slot : TimeSlot)
    (timezone : Option Int) :
    (getInconvenienceLevel slot timezone = .ideal ↔
      9 ≤ getLocalHour slot.start timezone ∧
        getLocalHour slot.start timezone ≤ 17) ∧
    (getInconvenienceLevel slot timezone = .good ↔
      (8 ≤ getLocalHour slot.start timezone ∧
        getLocalHour slot.start timezone ≤ 20) ∧
      ¬(9 ≤ getLocalHour slot.start timezone ∧
        getLocalHour slot.start timezone ≤ 17)) ∧
    (getInconvenienceLevel slot timezone = .workable ↔
      (6 ≤ getLocalHour slot.start timezone ∧
        getLocalHour slot.start timezone ≤ 22) ∧
      ¬(8 ≤ getLocalHour slot.start timezone ∧
        getLocalHour slot.start timezone ≤ 20)) ∧
    (getInconvenienceLevel slot timezone = .difficult ↔
      ¬(6 ≤ getLocalHour slot.start timezone ∧
        getLocalHour slot.start timezone ≤ 22)) ∧
    getInconvenienceLevel ⟨13 * msPerHour, 14 * msPerHour, none⟩ (some 0)
      = .ideal ∧
    getInconvenienceLevel ⟨7 * msPerHour, 8 * msPerHour, none⟩ (some 0)
      = .workable ∧
    getInconvenienceLevel ⟨5 * msPerHour, 6 * msPerHour, none⟩ (some 0)
      = .difficult ∧
    getInconvenienceLevel ⟨21 * msPerHour, 22 * msPerHour, none⟩ (some 0)
      = .workable ∧
    getInconvenienceLevel ⟨17 * msPerHour, 18 * msPerHour, none⟩ (some 0)
      = .ideal ∧
    getInconvenienceLevel ⟨18 * msPerHour, 19 * msPerHour, none⟩ (some 0)
      = .good := by
  refine ⟨?_, ?_, ?_, ?_, by decide, by decide, by decide, by decide,
    by decide, by decide⟩ <;>
    · simp only [getInconvenienceLevel]
      split_ifs <;> simp_all <;> omega

/-! ## Claim C8 -/

theorem topSlotLE_total (a b : TimeSlot) :
    topSlotLE a b = true ∨ topSlotLE b a = true := by
  obtain ⟨a₁, a₂, a₃⟩ := a
  obtain ⟨b₁, b₂, b₃⟩ := b
  simp [topSlotLE]
  omega

theorem topSlotLE_trans (a b c : TimeSlot) :
    topSlotLE a b = true → topSlotLE b c = true → topSlotLE a c = true := by
  obtain ⟨a₁, a₂, a₃⟩ := a
  obtain ⟨b₁, b₂, b₃⟩ := b
  obtain ⟨c₁, c₂, c₃⟩ := c
  simp [topSlotLE]
  omega

/-- C8: `getTopOverlappingSlots` returns the input sorted by descending
duration (`end - start`), ties broken by ascending start, truncated to
`limit`: the output is sorted for that order, together with the dropped
suffix of the sorted list it is a permutation of the input, it has
`min limit slots.length` elements, every kept slot precedes every dropped
slot in that order, and on slots of durations 30, 90 and 60 minutes it
returns them in the order 90, 60, 30. -/
theorem getTopOverlappingSlots_spec (slots : List TimeSlot) (limit : Nat) :
    (getTopOverlappingSlots slots limit).Pairwise
        (fun a b => b.stop - b.start < a.stop - a.start ∨
          (a.stop - a.start = b.stop - b.start ∧ a.start ≤ b.start)) ∧
    List.Perm
        (getTopOverlappingSlots slots limit ++
          (jsSort topSlotLE slots).drop limit)
        slots ∧
    (getTopOverlappingSlots slots limit).length = min limit slots.length ∧
    (∀ a ∈ getTopOverlappingSlots slots limit,
      ∀ b ∈ (jsSort topSlotLE slots).drop limit,
        b.stop - b.start < a.stop - a.start ∨
          (a.stop - a.start = b.stop - b.start ∧ a.start ≤ b.start)) ∧
    getTopOverlappingSlots
        [⟨0, 30 * msPerMinute, none⟩,
         ⟨100000000, 100000000 + 90 * msPerMinute, none⟩,
         ⟨200000000, 200000000 + 60 * msPerMinute, none⟩] 3
      = [⟨100000000, 100000000 + 90 * msPerMinute, none⟩,
         ⟨200000000, 200000000 + 60 * msPerMinute, none⟩,
         ⟨0, 30 * msPerMinute, none⟩] := by
  have hpw : (jsSort topSlotLE slots).Pairwise (fun a b => topSlotLE a b = true) :=
    pairwise_jsSort topSlotLE_total topSlotLE_trans slots
  have hiff : ∀ a b : TimeSlot, topSlotLE a b = true ↔
      (b.stop - b.start < a.stop - a.start ∨
        (a.stop - a.start = b.stop - b.start ∧ a.start ≤ b.start)) := by
    intro a b
    simp [topSlotLE]
  have hsplit := List.pairwise_append.mp
    (show ((jsSort topSlotLE slots).take limit ++
        (jsSort topSlotLE slots).drop limit).Pairwise
        (fun a b => topSlotLE a b = true) by
      rw [List.take_append_drop]
      exact hpw)
  refine ⟨?_, ?_, ?_, ?_, by decide⟩
  · exact (hsplit.1.imp fun h => (hiff _ _).mp h)
  · rw [getTopOverlappingSlots, List.take_append_drop]
    exact jsSort_perm topSlotLE slots
  · rw [getTopOverlappingSlots, List.length_take,
      (jsSort_perm topSlotLE slots).length_eq]
  · intro a ha b hb
    exact (hiff a b).mp (hsplit.2.2 a ha b hb)

/-! ## Counting lemmas for the one-time `Map` -/

theorem lookupCount_bumpCount (m : List (Int × Nat)) (t x : Int) :
    lookupCount (bumpCount m t) x
      = if x = t then lookupCount m t + 1 else lookupCount m x := by
  induction m with
  | nil =>
    by_cases h : x = t
    · simp [bumpCount, lookupCount, h]
    · simp [bumpCount, lookupCount, h, Ne.symm h]
  | cons e rest ih =>
    obtain ⟨k, c⟩ := e
    by_cases hk : k = t
    · subst hk
      by_cases hx : x = k
      · subst hx
        simp [bumpCount, lookupCount]
      · simp [bumpCount, lookupCount, hx, Ne.symm hx]
    · by_cases hx : x = k
      · subst hx
        simp [bumpCount, lookupCount, hk, Ne.symm hk, ih]
      · simp [bumpCount, lookupCount, hk, hx, Ne.symm hx, ih]

theorem keys_bumpCount (m : List (Int × Nat)) (t : Int) :
    (bumpCount m t).map Prod.fst
      = if t ∈ m.map Prod.fst then m.map Prod.fst
        else m.map Prod.fst ++ [t] := by
  induction m with
  | nil => simp [bumpCount]
  | cons e rest ih =>
    obtain ⟨k, c⟩ := e
    by_cases hk : k = t
    · subst hk
      simp [bumpCount]
    · simp only [bumpCount, if_neg hk, List.map_cons, List.mem_cons, ih]
      by_cases hmem : t ∈ rest.map Prod.fst
      · simp [hmem, Ne.symm hk]
      · simp [hmem, Ne.symm hk]

theorem lookupCount_foldl (ts : List Int) (m : List (Int × Nat)) (x : Int) :
    lookupCount (ts.foldl bumpCount m) x = lookupCount m x + ts.count x := by
  induction ts generalizing m with
  | nil => simp
  | cons t ts ih =>
    rw [List.foldl_cons, ih, lookupCount_bumpCount, List.count_cons]
    by_cases h : x = t
    · subst h
      simp
      omega
    · simp [h, Ne.symm h]

theorem mem_keys_foldl (ts : List Int) (m : List (Int × Nat)) (x : Int) :
    x ∈ (ts.foldl bumpCount m).map Prod.fst
      ↔ x ∈ m.map Prod.fst ∨ x ∈ ts := by
  induction ts generalizing m with
  | nil => simp
  | cons t ts ih =>
    rw [List.foldl_cons, ih, keys_bumpCount]
    by_cases hmem : t ∈ m.map Prod.fst
    · simp only [if_pos hmem, List.mem_cons]
      constructor
      · rintro (h | h)
        · exact Or.inl h
        · exact Or.inr (Or.inr h)
      · rintro (h | h | h)
        · exact Or.inl h
        · exact Or.inl (h ▸ hmem)
        · exact Or.inr h
    · simp only [if_neg hmem, List.mem_append, List.mem_singleton,
        List.mem_cons]
      tauto

theorem keys_nodup_foldl (ts : List Int) (m : List (Int × Nat))
    (h : (m.map Prod.fst).Nodup) :
    ((ts.foldl bumpCount m).map Prod.fst).Nodup := by
  induction ts generalizing m with
  | nil => exact h
  | cons t ts ih =>
    rw [List.foldl_cons]
    refine ih _ ?_
    rw [keys_bumpCount]
    by_cases hmem : t ∈ m.map Prod.fst
    · simpa [hmem] using h
    · simp only [if_neg hmem]
      rw [List.nodup_append]
      exact ⟨h, List.nodup_singleton t, by simpa using hmem⟩

theorem entry_lookup_of_nodup (m : List (Int × Nat))
    (hnd : (m.map Prod.fst).Nodup) :
    ∀ k c, (k, c) ∈ m → lookupCount m k = c := by
  induction m with
  | nil => simp
  | cons e rest ih =>
    obtain ⟨k', c'⟩ := e
    intro k c hmem
    simp only [List.map_cons, List.nodup_cons] at hnd
    rcases List.mem_cons.mp hmem with h | h
    · rw [Prod.mk.injEq] at h
      obtain ⟨rfl, rfl⟩ := h
      simp [lookupCount]
    · have hk : k ≠ k' := by
        rintro rfl
        exact hnd.1 (List.mem_map.mpr ⟨(k, c), h, rfl⟩)
      simp only [lookupCount, if_neg (Ne.symm hk)]
      exact ih hnd.2 k c h

theorem exists_entry_of_mem_keys (m : List (Int × Nat)) (k : Int)
    (h : k ∈ m.map Prod.fst) : ∃ c, (k, c) ∈ m := by
  rcases List.mem_map.mp h with ⟨⟨k', c⟩, hmem, hk⟩
  exact ⟨c, by simpa [← hk] using hmem⟩

theorem oneTimeCounts_eq (participants : List Participant) :
    oneTimeCounts participants
      = (startsOf participants).foldl bumpCount [] := by
  rw [oneTimeCounts]
  generalize ([] : List (Int × Nat)) = m
  induction participants generalizing m with
  | nil => simp [startsOf]
  | cons p ps ih =>
    rw [List.foldl_cons, ih]
    simp only [startsOf, List.flatMap_cons, List.foldl_append, List.foldl_map]

/-! ## Claim C1 -/

theorem startMem_oneTimePreMerge (participants : List Participant)
    (slotDuration : Int) (t : Int) :
    (∃ s ∈ oneTimePreMerge participants slotDuration, s.start = t)
      ↔ t ∈ startsOf participants ∧
        (startsOf participants).count t = participants.length := by
  have hkeys_nodup : ((oneTimeCounts participants).map Prod.fst).Nodup := by
    rw [oneTimeCounts_eq]
    exact keys_nodup_foldl _ _ (by simp)
  constructor
  · rintro ⟨s, hs, rfl⟩
    rcases List.mem_filterMap.mp hs with ⟨⟨k, c⟩, hmem, hf⟩
    dsimp only at hf
    by_cases hc : c = participants.length
    · rw [if_pos hc] at hf
      injection hf with hf
      subst hf
      dsimp only
      have hlookup := entry_lookup_of_nodup _ hkeys_nodup _ _ hmem
      rw [oneTimeCounts_eq, lookupCount_foldl] at hlookup
      simp only [lookupCount] at hlookup
      have hmemkeys : k ∈ (oneTimeCounts participants).map Prod.fst :=
        List.mem_map.mpr ⟨(k, c), hmem, rfl⟩
      rw [oneTimeCounts_eq, mem_keys_foldl] at hmemkeys
      simp only [List.map_nil, List.not_mem_nil, false_or] at hmemkeys
      exact ⟨hmemkeys, by omega⟩
    · rw [if_neg hc] at hf
      cases hf
  · rintro ⟨hmem, hcount⟩
    have hmemkeys : t ∈ (oneTimeCounts participants).map Prod.fst := by
      rw [oneTimeCounts_eq, mem_keys_foldl]
      exact Or.inr hmem
    obtain ⟨c, hentry⟩ := exists_entry_of_mem_keys _ _ hmemkeys
    have hlookup := entry_lookup_of_nodup _ hkeys_nodup _ _ hentry
    rw [oneTimeCounts_eq, lookupCount_foldl] at hlookup
    simp only [lookupCount] at hlookup
    have hc : c = participants.length := by omega
    refine ⟨{ start := t, stop := t + slotDuration * msPerMinute }, ?_, rfl⟩
    refine List.mem_filterMap.mpr ⟨(t, c), hentry, ?_⟩
    dsimp only
    rw [if_pos hc]

theorem count_startsOf (participants : List Participant) (t : Int) :
    (startsOf participants).count t
      = (participants.map fun p =>
          (p.availability.map (·.start)).count t).sum := by
  induction participants with
  | nil => simp [startsOf]
  | cons p ps ih =>
    simp only [startsOf, List.flatMap_cons, List.count_append, List.map_cons,
      List.sum_cons] at *
    omega

theorem sum_le_length_of_le_one (l : List Nat) (hle : ∀ x ∈ l, x ≤ 1) :
    l.sum ≤ l.length := by
  induction l with
  | nil => simp
  | cons a l ih =>
    simp only [List.sum_cons, List.length_cons]
    have h1 := hle a (List.mem_cons_self a l)
    have h2 := ih fun x hx => hle x (List.mem_cons_of_mem a hx)
    omega

theorem sum_eq_length_iff_all_one (l : List Nat) (hle : ∀ x ∈ l, x ≤ 1) :
    l.sum = l.length ↔ ∀ x ∈ l, x = 1 := by
  induction l with
  | nil => simp
  | cons a l ih =>
    have ha := hle a (List.mem_cons_self a l)
    have htail := fun x hx => hle x (List.mem_cons_of_mem a hx)
    have hsum := sum_le_length_of_le_one l htail
    rw [List.sum_cons, List.length_cons]
    constructor
    · intro h
      have ha1 : a = 1 := by omega
      have hl : l.sum = l.length := by omega
      intro x hx
      rcases List.mem_cons.mp hx with rfl | hx
      · exact ha1
      · exact (ih htail).mp hl x hx
    · intro h
      have ha1 : a = 1 := h a (List.mem_cons_self a l)
      have hall : ∀ x ∈ l, x = 1 := fun x hx =>
        h x (List.mem_cons_of_mem a hx)
      have := (ih htail).mpr hall
      omega

/-- C1 counterexample: with participants `A` (two identical availability
entries starting at 0) and `B` (no availability), the pre-merge result of
the ONE_TIME overlap contains a slot starting at instant 0, yet 0 is not
the start of any availability entry of `B`, refuting the claimed "iff". -/
theorem oneTimePreMerge_duplicate_counterexample :
    (∃ s ∈ oneTimePreMerge
        [⟨"A", some 0, [⟨0, 1800000, none⟩, ⟨0, 1800000, none⟩]⟩,
         ⟨"B", some 0, []⟩] 30, s.start = 0) ∧
    ¬(∀ p ∈ [(⟨"A", some 0, [⟨0, 1800000, none⟩, ⟨0, 1800000, none⟩]⟩ :
          Participant),
        ⟨"B", some 0, []⟩],
        ∃ a ∈ p.availability, a.start = 0) := by decide

/-- C1 (amended: additionally assuming that no participant lists two
availability entries with the same start instant, which the duplicate
counterexample requires): for two or more participants in ONE_TIME mode,
the pre-merge result of `calculateOverlap` contains a slot starting at `t`
iff `t` is the start of some availability entry of every participant, and
every pre-merge slot spans exactly `[start, start + slotDuration minutes]`. -/
theorem oneTimePreMerge_characterization (participants : List Participant)
    (slotDuration : Int) (t : Int) (h2 : 2 ≤ participants.length)
    (hnodup : ∀ p ∈ participants, (p.availability.map (·.start)).Nodup) :
    ((∃ s ∈ oneTimePreMerge participants slotDuration, s.start = t) ↔
      ∀ p ∈ participants, ∃ a ∈ p.availability, a.start = t) ∧
    ∀ s ∈ oneTimePreMerge participants slotDuration,
      s.stop = s.start + slotDuration * msPerMinute := by
  constructor
  · rw [startMem_oneTimePreMerge]
    have hle : ∀ x ∈ participants.map fun p =>
        (p.availability.map (·.start)).count t, x ≤ 1 := by
      intro x hx
      rcases List.mem_map.mp hx with ⟨p, hp, rfl⟩
      exact List.nodup_iff_count_le_one.mp (hnodup p hp) t
    constructor
    · rintro ⟨hmem, hcount⟩
      intro p hp
      rw [count_startsOf] at hcount
      have hall := (sum_eq_length_iff_all_one _ hle).mp
        (by rw [hcount, List.length_map])
      have h1 : (p.availability.map (·.start)).count t = 1 :=
        hall _ (List.mem_map.mpr ⟨p, hp, rfl⟩)
      have hmem' : t ∈ p.availability.map (·.start) :=
        List.count_pos_iff.mp (by omega)
      rcases List.mem_map.mp hmem' with ⟨a, ha, rfl⟩
      exact ⟨a, ha, rfl⟩
    · intro hall
      have h1 : ∀ p ∈ participants,
          (p.availability.map (·.start)).count t = 1 := by
        intro p hp
        obtain ⟨a, ha, hat⟩ := hall p hp
        have hmem : t ∈ p.availability.map (·.start) :=
          List.mem_map.mpr ⟨a, ha, hat⟩
        have hpos := List.count_pos_iff.mpr hmem
        have hle1 := List.nodup_iff_count_le_one.mp (hnodup p hp) t
        omega
      constructor
      · obtain ⟨p, hp⟩ : ∃ p, p ∈ participants := by
          cases participants with
          | nil => simp at h2
          | cons p ps => exact ⟨p, List.mem_cons_self p ps⟩
        obtain ⟨a, ha, hat⟩ := hall p hp
        exact List.mem_flatMap.mpr ⟨p, hp, List.mem_map.mpr ⟨a, ha, hat⟩⟩
      · have hall1 : ∀ x ∈ participants.map fun p =>
            (p.availability.map (·.start)).count t, x = 1 := by
          intro x hx
          rcases List.mem_map.mp hx with ⟨p, hp, rfl⟩
          exact h1 p hp
        have hsum := (sum_eq_length_iff_all_one _ hle).mpr hall1
        rw [count_startsOf, hsum, List.length_map]
  · intro s hs
    rcases List.mem_filterMap.mp hs with ⟨⟨k, c⟩, _, hf⟩
    dsimp only at hf
    by_cases hc : c = participants.length
    · rw [if_pos hc] at hf
      injection hf with hf
      subst hf
      rfl
    · rw [if_neg hc] at hf
      cases hf

/-- Witness for (amended) C1: two participants, both with a duplicate-free
availability entry starting at instant 0. -/
theorem oneTimePreMerge_characterization_witness :
    2 ≤ ([⟨"A", some 0, [⟨0, 1800000, none⟩]⟩,
          ⟨"B", some 60, [⟨0, 1800000, none⟩, ⟨3600000, 5400000, none⟩]⟩] :
        List Participant).length ∧
    (∀ p ∈ ([⟨"A", some 0, [⟨0, 1800000, none⟩]⟩,
          ⟨"B", some 60, [⟨0, 1800000, none⟩, ⟨3600000, 5400000, none⟩]⟩] :
        List Participant), (p.availability.map (·.start)).Nodup) ∧
    (((∃ s ∈ oneTimePreMerge
          [⟨"A", some 0, [⟨0, 1800000, none⟩]⟩,
           ⟨"B", some 60, [⟨0, 1800000, none⟩, ⟨3600000, 5400000, none⟩]⟩]
          30, s.start = 0) ↔
        ∀ p ∈ ([⟨"A", some 0, [⟨0, 1800000, none⟩]⟩,
            ⟨"B", some 60, [⟨0, 1800000, none⟩, ⟨3600000, 5400000, none⟩]⟩] :
          List Participant), ∃ a ∈ p.availability, a.start = 0) ∧
      ∀ s ∈ oneTimePreMerge
          [⟨"A", some 0, [⟨0, 1800000, none⟩]⟩,
           ⟨"B", some 60, [⟨0, 1800000, none⟩, ⟨3600000, 5400000, none⟩]⟩]
          30, s.stop = s.start + 30 * msPerMinute) :=
  ⟨by decide, by decide,
   oneTimePreMerge_characterization _ 30 0 (by decide) (by decide)⟩

/-! ## Claim C9 -/

theorem slotLE_total (a b : TimeSlot) :
    slotLE a b = true ∨ slotLE b a = true := by
  simp [slotLE]
  omega

theorem slotLE_trans (a b c : TimeSlot) :
    slotLE a b = true → slotLE b c = true → slotLE a c = true := by
  simp [slotLE]
  omega

theorem starts_preMerge_sublist (counts : List (Int × Nat)) (N : Nat)
    (d : Int) :
    List.Sublist
      ((counts.filterMap fun (timestamp, count) =>
        if count = N then
          some ({ start := timestamp, stop := timestamp + d * msPerMinute,
                  dayOfWeek := none } : TimeSlot)
        else none).map (·.start))
      (counts.map Prod.fst) := by
  induction counts with
  | nil => simp
  | cons e rest ih =>
    obtain ⟨k, c⟩ := e
    rw [List.filterMap_cons]
    dsimp only
    by_cases hc : c = N
    · rw [if_pos hc, List.map_cons, List.map_cons]
      exact List.Sublist.cons₂ _ ih
    · rw [if_neg hc, List.map_cons]
      exact List.Sublist.cons _ ih

theorem oneTimePreMerge_starts_nodup (participants : List Participant)
    (slotDuration : Int) :
    ((oneTimePreMerge participants slotDuration).map (·.start)).Nodup := by
  have hkeys : ((oneTimeCounts participants).map Prod.fst).Nodup := by
    rw [oneTimeCounts_eq]
    exact keys_nodup_foldl _ _ (by simp)
  exact List.Nodup.sublist
    (starts_preMerge_sublist (oneTimeCounts participants)
      participants.length slotDuration) hkeys

theorem jsSort_pairwise_lt (l : List TimeSlot)
    (hnd : (l.map (·.start)).Nodup) :
    (jsSort slotLE l).Pairwise fun a b => a.start < b.start := by
  have hpw := pairwise_jsSort slotLE_total slotLE_trans l
  have hnd' : ((jsSort slotLE l).map (·.start)).Nodup :=
    ((jsSort_perm slotLE l).map (·.start)).nodup_iff.mpr hnd
  rw [List.Nodup, List.pairwise_map] at hnd'
  refine ((hpw.and hnd').imp ?_)
  rintro a b ⟨hle, hne⟩
  rw [slotLE, decide_eq_true_eq] at hle
  exact lt_of_le_of_ne hle hne

theorem mergeRun_starts_sublist (cur : TimeSlot) (l : List TimeSlot) :
    List.Sublist ((mergeRun cur l).map (·.start))
      (cur.start :: l.map (·.start)) := by
  induction l generalizing cur with
  | nil => simp [mergeRun]
  | cons s rest ih =>
    simp only [mergeRun]
    split
    · refine List.Sublist.trans (by simpa using ih { cur with stop := s.stop }) ?_
      rw [List.map_cons]
      exact List.Sublist.cons₂ _ (List.Sublist.cons _ (List.Sublist.refl _))
    · rw [List.map_cons, List.map_cons]
      exact List.Sublist.cons₂ _ (ih s)

theorem mergeSlots_pairwise_lt (l : List TimeSlot)
    (h : l.Pairwise fun a b => a.start < b.start) :
    (mergeSlots l).Pairwise fun a b => a.start < b.start := by
  cases l with
  | nil => simp [mergeSlots]
  | cons s rest =>
    have hmap : ((s :: rest).map (·.start)).Pairwise (· < ·) :=
      (List.pairwise_map).mpr h
    have hsub : ((mergeRun s rest).map (·.start)).Pairwise (· < ·) := by
      refine List.Pairwise.sublist ?_ hmap
      simpa using mergeRun_starts_sublist s rest
    exact (List.pairwise_map).mp hsub

/-- C9: for two or more participants in ONE_TIME mode, the slot list
returned by `calculateOverlap` is strictly increasing by start instant and
fully merged — no slot's end equals the next slot's start. -/
theorem calculateOverlap_output_sorted_merged
    (participants : List Participant) (slotDuration : Int)
    (h2 : 2 ≤ participants.length) :
    ((calculateOverlap participants slotDuration
        .ONE_TIME).overlappingSlots.Pairwise
      fun a b => a.start < b.start) ∧
    ((calculateOverlap participants slotDuration
        .ONE_TIME).overlappingSlots.Chain'
      fun a b => a.stop ≠ b.start) := by
  obtain ⟨p₀, p₁, rest, rfl⟩ :
      ∃ p₀ p₁ rest, participants = p₀ :: p₁ :: rest := by
    cases participants with
    | nil => simp at h2
    | cons a t =>
      cases t with
      | nil => simp at h2
      | cons b r => exact ⟨a, b, r, rfl⟩
  show ((mergeSlots (jsSort slotLE (oneTimePreMerge (p₀ :: p₁ :: rest)
      slotDuration))).Pairwise fun a b => a.start < b.start) ∧
    ((mergeSlots (jsSort slotLE (oneTimePreMerge (p₀ :: p₁ :: rest)
      slotDuration))).Chain' fun a b => a.stop ≠ b.start)
  exact ⟨mergeSlots_pairwise_lt _
      (jsSort_pairwise_lt _ (oneTimePreMerge_starts_nodup _ _)),
    mergeSlots_chain _⟩

/-- Witness for C9 at two concrete participants with two common adjacent
slots. -/
theorem calculateOverlap_output_sorted_merged_witness :
    2 ≤ ([⟨"A", some 0, [⟨0, 900000, none⟩, ⟨900000, 1800000, none⟩]⟩,
          ⟨"B", some 60, [⟨900000, 1800000, none⟩, ⟨0, 900000, none⟩]⟩] :
        List Participant).length ∧
    (((calculateOverlap
        [⟨"A", some 0, [⟨0, 900000, none⟩, ⟨900000, 1800000, none⟩]⟩,
         ⟨"B", some 60, [⟨900000, 1800000, none⟩, ⟨0, 900000, none⟩]⟩] 15
        .ONE_TIME).overlappingSlots.Pairwise
      fun a b => a.start < b.start) ∧
    ((calculateOverlap
        [⟨"A", some 0, [⟨0, 900000, none⟩, ⟨900000, 1800000, none⟩]⟩,
         ⟨"B", some 60, [⟨900000, 1800000, none⟩, ⟨0, 900000, none⟩]⟩] 15
        .ONE_TIME).overlappingSlots.Chain'
      fun a b => a.stop ≠ b.start)) :=
  ⟨by decide,
   calculateOverlap_output_sorted_merged _ 15 (by decide)⟩

/-! ## Claim C6 -/

theorem lookupRecCount_bump (m : List ((Nat × Int × Int) × Nat × TimeSlot))
    (slot : TimeSlot) (x : Nat × Int × Int) :
    lookupRecCount (bumpRecurring m slot) x
      = if x = recurringKey slot then lookupRecCount m (recurringKey slot) + 1
        else lookupRecCount m x := by
  induction m with
  | nil =>
    by_cases h : x = recurringKey slot
    · simp [bumpRecurring, lookupRecCount, h]
    · simp [bumpRecurring, lookupRecCount, h, Ne.symm h]
  | cons e rest ih =>
    obtain ⟨k, c, stored⟩ := e
    by_cases hk : k = recurringKey slot
    · subst hk
      by_cases hx : x = recurringKey slot
      · subst hx
        simp [bumpRecurring, lookupRecCount]
      · simp [bumpRecurring, lookupRecCount, hx, Ne.symm hx]
    · by_cases hx : x = k
      · subst hx
        simp [bumpRecurring, lookupRecCount, hk, Ne.symm hk, ih]
      · simp [bumpRecurring, lookupRecCount, hk, hx, Ne.symm hx, ih]

theorem keys_bump (m : List ((Nat × Int × Int) × Nat × TimeSlot))
    (slot : TimeSlot) :
    (bumpRecurring m slot).map Prod.fst
      = if recurringKey slot ∈ m.map Prod.fst then m.map Prod.fst
        else m.map Prod.fst ++ [recurringKey slot] := by
  induction m with
  | nil => simp [bumpRecurring]
  | cons e rest ih =>
    obtain ⟨k, c, stored⟩ := e
    by_cases hk : k = recurringKey slot
    · subst hk
      simp [bumpRecurring]
    · simp only [bumpRecurring, if_neg hk, List.map_cons, List.mem_cons, ih]
      by_cases hmem : recurringKey slot ∈ rest.map Prod.fst
      · simp [hmem, Ne.symm hk]
      · simp [hmem, Ne.symm hk]

theorem lookupRecCount_foldl (ts : List TimeSlot)
    (m : List ((Nat × Int × Int) × Nat × TimeSlot)) (x : Nat × Int × Int) :
    lookupRecCount (ts.foldl bumpRecurring m) x
      = lookupRecCount m x + (ts.map recurringKey).count x := by
  induction ts generalizing m with
  | nil => simp
  | cons t ts ih =>
    rw [List.foldl_cons, ih, lookupRecCount_bump, List.map_cons,
      List.count_cons]
    by_cases h : x = recurringKey t
    · subst h
      simp
      omega
    · simp [h, Ne.symm h]

theorem mem_keys_rec_foldl (ts : List TimeSlot)
    (m : List ((Nat × Int × Int) × Nat × TimeSlot)) (x : Nat × Int × Int) :
    x ∈ (ts.foldl bumpRecurring m).map Prod.fst
      ↔ x ∈ m.map Prod.fst ∨ x ∈ ts.map recurringKey := by
  induction ts generalizing m with
  | nil => simp
  | cons t ts ih =>
    rw [List.foldl_cons, ih, keys_bump, List.map_cons, List.mem_cons]
    by_cases hmem : recurringKey t ∈ m.map Prod.fst
    · simp only [if_pos hmem]
      constructor
      · rintro (h | h)
        · exact Or.inl h
        · exact Or.inr (Or.inr h)
      · rintro (h | h | h)
        · exact Or.inl h
        · exact Or.inl (h ▸ hmem)
        · exact Or.inr h
    · simp only [if_neg hmem, List.mem_append, List.mem_singleton]
      tauto

theorem keys_nodup_rec_foldl (ts : List TimeSlot)
    (m : List ((Nat × Int × Int) × Nat × TimeSlot))
    (h : (m.map Prod.fst).Nodup) :
    ((ts.foldl bumpRecurring m).map Prod.fst).Nodup := by
  induction ts generalizing m with
  | nil => exact h
  | cons t ts ih =>
    rw [List.foldl_cons]
    refine ih _ ?_
    rw [keys_bump]
    by_cases hmem : recurringKey t ∈ m.map Prod.fst
    · simpa [hmem] using h
    · simp only [if_neg hmem]
      rw [List.nodup_append]
      exact ⟨h, List.nodup_singleton _, by simpa using hmem⟩

theorem rec_entry_lookup_of_nodup
    (m : List ((Nat × Int × Int) × Nat × TimeSlot))
    (hnd : (m.map Prod.fst).Nodup) :
    ∀ k c s, (k, c, s) ∈ m → lookupRecCount m k = c := by
  induction m with
  | nil => simp
  | cons e rest ih =>
    obtain ⟨k', c', s'⟩ := e
    intro k c s hmem
    simp only [List.map_cons, List.nodup_cons] at hnd
    rcases List.mem_cons.mp hmem with h | h
    · injection h with h1 h2
      subst h1
      injection h2 with h2 h3
      subst h2
      subst h3
      simp [lookupRecCount]
    · have hk : k ≠ k' := by
        rintro rfl
        exact hnd.1 (List.mem_map.mpr ⟨(k, c, s), h, rfl⟩)
      simp only [lookupRecCount, if_neg (Ne.symm hk)]
      exact ih hnd.2 k c s h

theorem rec_exists_entry_of_mem_keys
    (m : List ((Nat × Int × Int) × Nat × TimeSlot)) (k : Nat × Int × Int)
    (h : k ∈ m.map Prod.fst) : ∃ c s, (k, c, s) ∈ m := by
  rcases List.mem_map.mp h with ⟨⟨k', c, s⟩, hmem, hk⟩
  exact ⟨c, s, by simpa [← hk] using hmem⟩

theorem recurringCounts_eq (participants : List Participant) :
    recurringCounts participants
      = (slotsOf participants).foldl bumpRecurring [] := by
  rw [recurringCounts]
  generalize ([] : List ((Nat × Int × Int) × Nat × TimeSlot)) = m
  induction participants generalizing m with
  | nil => simp [slotsOf]
  | cons p ps ih =>
    rw [List.foldl_cons, ih]
    simp only [slotsOf, List.flatMap_cons, List.foldl_append]

theorem mergeRunRecurring_ne_nil (cur : TimeSlot) (l : List TimeSlot) :
    mergeRunRecurring cur l ≠ [] := by
  induction l generalizing cur with
  | nil => simp [mergeRunRecurring]
  | cons s rest ih =>
    simp only [mergeRunRecurring]
    split
    · exact ih _
    · simp

theorem mergeSlotsRecurring_eq_nil_iff (l : List TimeSlot) :
    mergeSlotsRecurring l = [] ↔ l = [] := by
  cases l with
  | nil => simp [mergeSlotsRecurring]
  | cons s rest =>
    simp only [mergeSlotsRecurring]
    constructor
    · intro h
      exact absurd h (mergeRunRecurring_ne_nil s rest)
    · intro h
      cases h

theorem perm_count_eq {α : Type} [BEq α] {l₁ l₂ : List α}
    (h : List.Perm l₁ l₂) (a : α) : l₁.count a = l₂.count a :=
  h.countP_eq _

theorem recurring_hasOverlap_iff (participants : List Participant)
    (slotDuration : Int) (h2 : 2 ≤ participants.length) :
    ((calculateOverlap participants slotDuration .RECURRING).hasOverlap
        = true)
      ↔ ∃ k ∈ allRecurringKeys participants,
          (allRecurringKeys participants).count k = participants.length := by
  obtain ⟨p₀, p₁, rest, rfl⟩ :
      ∃ p₀ p₁ rest, participants = p₀ :: p₁ :: rest := by
    cases participants with
    | nil => simp at h2
    | cons a t =>
      cases t with
      | nil => simp at h2
      | cons b r => exact ⟨a, b, r, rfl⟩
  show (decide (0 < (mergeSlotsRecurring (jsSort recurringSlotLE
      (recurringPreMerge (p₀ :: p₁ :: rest)))).length) = true) ↔ _
  rw [decide_eq_true_eq]
  have hnodup : ((recurringCounts (p₀ :: p₁ :: rest)).map Prod.fst).Nodup := by
    rw [recurringCounts_eq]
    exact keys_nodup_rec_foldl _ _ (by simp)
  generalize hps : p₀ :: p₁ :: rest = ps at *
  constructor
  · intro hlen
    have hne : mergeSlotsRecurring (jsSort recurringSlotLE
        (recurringPreMerge ps)) ≠ [] := by
      intro h
      rw [h] at hlen
      simp at hlen
    rw [Ne, mergeSlotsRecurring_eq_nil_iff] at hne
    have hne2 : recurringPreMerge ps ≠ [] := by
      intro h
      apply hne
      rw [h]
      rfl
    rw [Ne, recurringPreMerge, List.filterMap_eq_nil_iff] at hne2
    push_neg at hne2
    obtain ⟨⟨k, c, s⟩, hmem, hsome⟩ := hne2
    dsimp only at hsome
    have hc : c = ps.length := by
      by_cases h : c = ps.length
      · exact h
      · rw [if_neg h] at hsome
        simp at hsome
    have hlookup := rec_entry_lookup_of_nodup _ hnodup _ _ _ hmem
    rw [recurringCounts_eq, lookupRecCount_foldl] at hlookup
    simp only [lookupRecCount] at hlookup
    refine ⟨k, ?_, by rw [allRecurringKeys]; omega⟩
    have hmemkeys : k ∈ (recurringCounts ps).map Prod.fst :=
      List.mem_map.mpr ⟨(k, c, s), hmem, rfl⟩
    rw [recurringCounts_eq, mem_keys_rec_foldl] at hmemkeys
    simpa [allRecurringKeys] using hmemkeys
  · rintro ⟨k, hkmem, hkcount⟩
    have hmemkeys : k ∈ (recurringCounts ps).map Prod.fst := by
      rw [recurringCounts_eq, mem_keys_rec_foldl]
      right
      simpa [allRecurringKeys] using hkmem
    obtain ⟨c, s, hentry⟩ := rec_exists_entry_of_mem_keys _ _ hmemkeys
    have hlookup := rec_entry_lookup_of_nodup _ hnodup _ _ _ hentry
    rw [recurringCounts_eq, lookupRecCount_foldl] at hlookup
    simp only [lookupRecCount] at hlookup
    have hc : c = ps.length := by
      rw [allRecurringKeys] at hkcount
      omega
    have hne2 : recurringPreMerge ps ≠ [] := by
      rw [Ne, recurringPreMerge, List.filterMap_eq_nil_iff]
      push_neg
      refine ⟨(k, c, s), hentry, ?_⟩
      dsimp only
      rw [if_pos hc]
      simp
    have : jsSort recurringSlotLE (recurringPreMerge ps) ≠ [] := by
      intro h
      have := (jsSort_perm recurringSlotLE (recurringPreMerge ps)).length_eq
      rw [h] at this
      simp at this
      exact hne2 (List.length_eq_zero.mp this.symm)
    rw [Ne, ← mergeSlotsRecurring_eq_nil_iff (jsSort recurringSlotLE
      (recurringPreMerge ps))] at this
    cases hml : mergeSlotsRecurring (jsSort recurringSlotLE
        (recurringPreMerge ps)) with
    | nil => exact absurd hml this
    | cons a t => simp

/-- C6: for two or more participants in RECURRING mode, whether
`calculateOverlap` reports a match depends only on the multiset of
`(dayOfWeek, UTC hour, UTC minute)` matching keys (explicit `dayOfWeek` tag
when present, else the start's weekday) and the participant count — so it
is invariant under moving any slot to a different calendar date that
preserves its key. -/
theorem recurring_hasOverlap_key_invariant (ps qs : List Participant)
    (d d' : Int) (h2 : 2 ≤ ps.length) (hlen : ps.length = qs.length)
    (hkeys : List.Perm (allRecurringKeys ps) (allRecurringKeys qs)) :
    (calculateOverlap ps d .RECURRING).hasOverlap
      = (calculateOverlap qs d' .RECURRING).hasOverlap := by
  rw [Bool.eq_iff_iff, recurring_hasOverlap_iff ps d h2,
    recurring_hasOverlap_iff qs d' (hlen ▸ h2)]
  constructor
  · rintro ⟨k, hkmem, hkcount⟩
    refine ⟨k, hkeys.mem_iff.mp hkmem, ?_⟩
    have hcnt := perm_count_eq hkeys k
    omega
  · rintro ⟨k, hkmem, hkcount⟩
    refine ⟨k, hkeys.mem_iff.mpr hkmem, ?_⟩
    have hcnt := perm_count_eq hkeys k
    omega

/-- Witness for C6: the same two participants' Monday-10:00-UTC slots moved
from 2024-01-01 to the Mondays 2024-01-08 and 2024-01-15 — different
calendar dates, identical `(dayOfWeek, hour, minute)` keys. -/
theorem recurring_hasOverlap_key_invariant_witness :
    2 ≤ ([⟨"A", some 0, [⟨1704103200000, 1704105000000, none⟩]⟩,
          ⟨"B", some 480, [⟨1704103200000, 1704105000000, none⟩]⟩] :
        List Participant).length ∧
    ([⟨"A", some 0, [⟨1704103200000, 1704105000000, none⟩]⟩,
      ⟨"B", some 480, [⟨1704103200000, 1704105000000, none⟩]⟩] :
        List Participant).length
      = ([⟨"A", some 0, [⟨1704708000000, 1704709800000, none⟩]⟩,
          ⟨"B", some 480, [⟨1705312800000, 1705314600000, none⟩]⟩] :
        List Participant).length ∧
    List.Perm
      (allRecurringKeys
        [⟨"A", some 0, [⟨1704103200000, 1704105000000, none⟩]⟩,
         ⟨"B", some 480, [⟨1704103200000, 1704105000000, none⟩]⟩])
      (allRecurringKeys
        [⟨"A", some 0, [⟨1704708000000, 1704709800000, none⟩]⟩,
         ⟨"B", some 480, [⟨1705312800000, 1705314600000, none⟩]⟩]) ∧
    (calculateOverlap
        [⟨"A", some 0, [⟨1704103200000, 1704105000000, none⟩]⟩,
         ⟨"B", some 480, [⟨1704103200000, 1704105000000, none⟩]⟩]
        30 .RECURRING).hasOverlap
      = (calculateOverlap
          [⟨"A", some 0, [⟨1704708000000, 1704709800000, none⟩]⟩,
           ⟨"B", some 480, [⟨1705312800000, 1705314600000, none⟩]⟩]
          60 .RECURRING).hasOverlap :=
  ⟨by decide, by decide, by decide,
   recurring_hasOverlap_key_invariant _ _ 30 60 (by decide) (by decide)
     (by decide)⟩

/-! ## Claim C5 -/

theorem candidateLE_total (a b : ScoredSlot) :
    candidateLE a b = true ∨ candidateLE b a = true := by
  obtain ⟨s₁, sc₁, av₁⟩ := a
  obtain ⟨s₂, sc₂, av₂⟩ := b
  simp [candidateLE]
  omega

theorem candidateLE_trans (a b c : ScoredSlot) :
    candidateLE a b = true → candidateLE b c = true →
      candidateLE a c = true := by
  obtain ⟨s₁, sc₁, av₁⟩ := a
  obtain ⟨s₂, sc₂, av₂⟩ := b
  obtain ⟨s₃, sc₃, av₃⟩ := c
  simp [candidateLE]
  omega

theorem calculateSlotScore_foldl_aux (slot : TimeSlot)
    (ps : List Participant) :
    ∀ acc : Int,
      ps.foldl
        (fun score participant =>
          let score :=
            if isAvailableFor slot participant then score + 10 else score
          let localHour := getLocalHour slot.start participant.timezone
          if 9 ≤ localHour ∧ localHour ≤ 17 then score + 5
          else if 8 ≤ localHour ∧ localHour ≤ 20 then score + 3
          else if 6 ≤ localHour ∧ localHour ≤ 22 then score + 1
          else score) acc
      = acc + specSlotScore slot ps := by
  induction ps with
  | nil =>
    intro acc
    simp [specSlotScore]
  | cons p ps ih =>
    intro acc
    rw [List.foldl_cons, ih]
    simp only [specSlotScore, List.map_cons, List.sum_cons]
    by_cases ha : isAvailableFor slot p <;>
      simp only [ha, if_true, if_false, convenienceBonus] <;>
      split_ifs <;> ring

/-- C5: the candidate score equals the spec's sum — per participant, 10
when an availability entry fully contains the candidate plus the
[9,17]/[8,20]/[6,22] convenience bonus computed regardless of availability
— and `getAISuggestion`'s ranking sorts the scored universe primarily by
descending `availableCount` with ties broken by descending `score` before
taking the top 5. -/
theorem slotScore_and_ranking (slot : TimeSlot)
    (participants : List Participant) (slotDuration : Int)
    (dateRangeStart dateRangeEnd : Int) :
    calculateSlotScore slot participants = specSlotScore slot participants ∧
    ((rankedCandidates participants slotDuration dateRangeStart
        dateRangeEnd).Pairwise
      fun a b => b.availableCount < a.availableCount ∨
        (a.availableCount = b.availableCount ∧ b.score ≤ a.score)) ∧
    List.Perm
      (rankedCandidates participants slotDuration dateRangeStart dateRangeEnd)
      (scoredCandidates participants slotDuration dateRangeStart
        dateRangeEnd) ∧
    topCandidates participants slotDuration dateRangeStart dateRangeEnd
      = (rankedCandidates participants slotDuration dateRangeStart
          dateRangeEnd).take 5 := by
  refine ⟨?_, ?_, ?_, rfl⟩
  · rw [calculateSlotScore]
    simpa using calculateSlotScore_foldl_aux slot participants 0
  · refine (pairwise_jsSort candidateLE_total candidateLE_trans _).imp ?_
    intro a b h
    rw [candidateLE, decide_eq_true_eq] at h
    exact h
  · exact jsSort_perm candidateLE _

/-! ## Claim C2 — success lemmas for the fallback paths -/

theorem exceptMapM_ok_of_forall {α β : Type} {f : α → Except String β}
    {l : List α} (h : ∀ a ∈ l, ∃ b, f a = .ok b) :
    ∃ bs, exceptMapM f l = .ok bs := by
  induction l with
  | nil => exact ⟨[], rfl⟩
  | cons x xs ih =>
    obtain ⟨b, hb⟩ := h x (List.mem_cons_self x xs)
    obtain ⟨bs, hbs⟩ := ih fun a ha => h a (List.mem_cons_of_mem x ha)
    exact ⟨b :: bs, by rw [exceptMapM, hb, hbs]⟩

theorem formatSlotInTimezone_ok (slot : TimeSlot) (off : Int) (b : Bool) :
    ∃ f, formatSlotInTimezone slot (some off) b = .ok f := by
  rw [formatSlotInTimezone]
  split
  · exact ⟨_, rfl⟩
  · exact ⟨_, rfl⟩

theorem localImpacts_ok (slot : TimeSlot) (ps : List Participant)
    (h : ∀ p ∈ ps, p.timezone ≠ none) :
    ∃ l, localImpacts slot ps = .ok l := by
  rw [localImpacts]
  refine exceptMapM_ok_of_forall ?_
  intro p hp
  obtain ⟨off, hoff⟩ : ∃ off, p.timezone = some off := by
    cases hq : p.timezone with
    | none => exact absurd hq (h p hp)
    | some o => exact ⟨o, rfl⟩
  obtain ⟨f, hf⟩ := formatSlotInTimezone_ok slot off false
  exact ⟨_, by rw [hoff, hf]⟩

theorem renderCandidate_ok (ps : List Participant) (ic : Nat × ScoredSlot)
    (h : ∀ p ∈ ps, p.timezone ≠ none) :
    ∃ s, renderCandidate ps ic = .ok s := by
  obtain ⟨i, c⟩ := ic
  rw [renderCandidate]
  obtain ⟨ls, hls⟩ : ∃ ls, exceptMapM
      (fun p =>
        match formatSlotInTimezone c.slot p.timezone with
        | .error e => .error e
        | .ok formatted =>
          .ok ("  " ++ p.name ++ ": " ++ formatted.startTime ++ " - " ++
            formatted.endTime))
      ps = .ok ls := by
    refine exceptMapM_ok_of_forall ?_
    intro p hp
    obtain ⟨off, hoff⟩ : ∃ off, p.timezone = some off := by
      cases hq : p.timezone with
      | none => exact absurd hq (h p hp)
      | some o => exact ⟨o, rfl⟩
    obtain ⟨f, hf⟩ := formatSlotInTimezone_ok c.slot off false
    exact ⟨_, by rw [hoff, hf]⟩
  rw [hls]
  exact ⟨_, rfl⟩

theorem buildPrompt_ok (ps : List Participant) (cands : List ScoredSlot)
    (d : Int) (h : ∀ p ∈ ps, p.timezone ≠ none) :
    ∃ s, buildPrompt ps cands d = .ok s := by
  rw [buildPrompt]
  obtain ⟨info, hinfo⟩ :=
    exceptMapM_ok_of_forall
      fun ic (_ : ic ∈ cands.enum) => renderCandidate_ok ps ic h
  rw [hinfo]
  exact ⟨_, rfl⟩

theorem countLE_total (a b : TimeSlot × Nat) :
    decide (b.2 ≤ a.2) = true ∨ decide (a.2 ≤ b.2) = true := by
  simp
  omega

theorem countLE_trans (a b c : TimeSlot × Nat) :
    decide (b.2 ≤ a.2) = true → decide (c.2 ≤ b.2) = true →
      decide (c.2 ≤ a.2) = true := by
  simp
  omega

theorem getAISuggestionCatch_spec (ps : List Participant) (d : Int)
    (t0 t1 : Int) (hvalid : ∀ p ∈ ps, p.timezone ≠ none)
    (hcand : generateAllPossibleSlots t0 t1 d ≠ []) :
    ∃ s, getAISuggestionCatch ps d t0 t1 = .ok (some s) ∧
      s.suggestedTime ∈ generateAllPossibleSlots t0 t1 d ∧
      ∀ c ∈ generateAllPossibleSlots t0 t1 d,
        countAvailableParticipants c ps
          ≤ countAvailableParticipants s.suggestedTime ps := by
  set allSlots := generateAllPossibleSlots t0 t1 d with hall
  set counted := allSlots.map fun slot =>
    (slot, countAvailableParticipants slot ps) with hcounted
  set sorted := jsSort (fun a b => decide (b.2 ≤ a.2)) counted with hsorted
  have hsne : sorted ≠ [] := by
    intro h
    have hl := (jsSort_perm (fun a b : TimeSlot × Nat =>
      decide (b.2 ≤ a.2)) counted).length_eq
    rw [← hsorted, h] at hl
    simp only [List.length_nil] at hl
    rw [hcounted, List.length_map] at hl
    exact hcand (List.length_eq_zero.mp hl.symm)
  obtain ⟨best, tail, hbt⟩ : ∃ best tail, sorted = best :: tail := by
    cases hs : sorted with
    | nil => exact absurd hs hsne
    | cons a t => exact ⟨a, t, rfl⟩
  have hbest_mem : best ∈ counted := by
    have hb : best ∈ jsSort (fun a b : TimeSlot × Nat =>
        decide (b.2 ≤ a.2)) counted := by
      rw [← hsorted, hbt]
      exact List.mem_cons_self best tail
    exact mem_jsSort.mp hb
  obtain ⟨bslot, hbslot, hbeq⟩ := List.mem_map.mp hbest_mem
  have hmax : ∀ c ∈ allSlots,
      countAvailableParticipants c ps ≤ best.2 := by
    intro c hc
    have hmem : (c, countAvailableParticipants c ps) ∈ sorted := by
      rw [hsorted, mem_jsSort, hcounted]
      exact List.mem_map.mpr ⟨c, hc, rfl⟩
    rw [hbt] at hmem
    rcases List.mem_cons.mp hmem with heq | hmem
    · rw [← heq]
    · have hpw := pairwise_jsSort countLE_total countLE_trans counted
      rw [← hsorted, hbt, List.pairwise_cons] at hpw
      have := hpw.1 _ hmem
      simpa using this
  obtain ⟨impacts, himpacts⟩ := localImpacts_ok best.1 ps hvalid
  refine ⟨{ suggestedTime := best.1,
            reasoning := "This time has the most participants available.",
            participantImpact := impacts }, ?_, ?_, ?_⟩
  · rw [getAISuggestionCatch]
    rw [← hall, ← hcounted, ← hsorted, hbt]
    dsimp only [List.head?]
    rw [himpacts]
  · rw [← hbeq]
    exact hbslot
  · intro c hc
    have := hmax c hc
    rw [← hbeq] at this ⊢
    simpa using this

theorem topCandidates_head (ps : List Participant) (d t0 t1 : Int)
    (hcand : generateAllPossibleSlots t0 t1 d ≠ []) :
    ∃ b tail, rankedCandidates ps d t0 t1 = b :: tail ∧
      topCandidates ps d t0 t1 = b :: tail.take 4 := by
  cases hr : rankedCandidates ps d t0 t1 with
  | nil =>
    exfalso
    have hl := (jsSort_perm candidateLE
      (scoredCandidates ps d t0 t1)).length_eq
    rw [show jsSort candidateLE (scoredCandidates ps d t0 t1)
      = rankedCandidates ps d t0 t1 from rfl, hr] at hl
    simp only [List.length_nil] at hl
    rw [scoredCandidates, List.length_map] at hl
    exact hcand (List.length_eq_zero.mp hl.symm)
  | cons b tail =>
    refine ⟨b, tail, rfl, ?_⟩
    rw [topCandidates, hr]
    rfl

theorem rankedCandidates_head_max (ps : List Participant) (d t0 t1 : Int)
    (b : ScoredSlot) (tail : List ScoredSlot)
    (hr : rankedCandidates ps d t0 t1 = b :: tail) :
    b.slot ∈ generateAllPossibleSlots t0 t1 d ∧
    b.availableCount = countAvailableParticipants b.slot ps ∧
    ∀ c ∈ generateAllPossibleSlots t0 t1 d,
      countAvailableParticipants c ps ≤ b.availableCount := by
  have hbmem : b ∈ scoredCandidates ps d t0 t1 := by
    have hb : b ∈ jsSort candidateLE (scoredCandidates ps d t0 t1) := by
      show b ∈ rankedCandidates ps d t0 t1
      rw [hr]
      exact List.mem_cons_self _ _
    exact mem_jsSort.mp hb
  obtain ⟨slot, hslot, heq⟩ := List.mem_map.mp hbmem
  have hpw := pairwise_jsSort candidateLE_total candidateLE_trans
    (scoredCandidates ps d t0 t1)
  rw [show jsSort candidateLE (scoredCandidates ps d t0 t1)
    = rankedCandidates ps d t0 t1 from rfl, hr, List.pairwise_cons] at hpw
  refine ⟨?_, ?_, ?_⟩
  · rw [← heq]
    exact hslot
  · rw [← heq]
  · intro c hc
    have hmem : (⟨c, calculateSlotScore c ps,
        countAvailableParticipants c ps⟩ : ScoredSlot)
        ∈ rankedCandidates ps d t0 t1 := by
      show _ ∈ jsSort candidateLE (scoredCandidates ps d t0 t1)
      rw [mem_jsSort, scoredCandidates]
      exact List.mem_map.mpr ⟨c, hc, rfl⟩
    rw [hr] at hmem
    rcases List.mem_cons.mp hmem with heq2 | hmem
    · rw [show countAvailableParticipants c ps
        = (⟨c, calculateSlotScore c ps,
            countAvailableParticipants c ps⟩ : ScoredSlot).availableCount
        from rfl, heq2]
    · have hle := hpw.1 _ hmem
      rw [candidateLE, decide_eq_true_eq] at hle
      rcases hle with h | ⟨h, _⟩
      · exact le_of_lt h
      · exact le_of_eq h.symm

/-- C2 counterexample: when the reasoning collaborator responds with a
missing/empty message content, `getAISuggestion` returns `.ok none`
(`return null` inside the `try` block) even though candidate slots exist,
contradicting the claimed non-null fallback. -/
theorem getAISuggestion_noContent_counterexample :
    getAISuggestion [⟨"Alice", some 0, [⟨28800000, 32400000, none⟩]⟩]
        60 0 0 .noContent = .ok none ∧
      generateAllPossibleSlots 0 0 60 ≠ [] := by
  constructor
  · rfl
  · decide

/-- C2 (amended: the non-null fallback guarantee holds for collaborator
failures that throw — unreachable service, unparsable JSON — and for
out-of-range selection indices, provided every participant's timezone is
recognized; a response with missing/empty content instead makes
`getAISuggestion` return null, and an unrecognized participant timezone
makes the fallback itself throw): under those hypotheses `getAISuggestion`
propagates no error and returns a suggestion whose slot is a candidate of
maximal `availableCount` over the entire candidate universe. -/
theorem getAISuggestion_failure_fallback (ps : List Participant) (d : Int)
    (t0 t1 : Int) (outcome : AIOutcome)
    (hvalid : ∀ p ∈ ps, p.timezone ≠ none)
    (hcand : generateAllPossibleSlots t0 t1 d ≠ [])
    (hfail : outcome = .unreachable ∨ outcome = .badJSON ∨
      ∃ idx r imp, outcome = .choice idx r imp ∧
        listGetInt (topCandidates ps d t0 t1) idx = none) :
    ∃ s, getAISuggestion ps d t0 t1 outcome = .ok (some s) ∧
      s.suggestedTime ∈ generateAllPossibleSlots t0 t1 d ∧
      ∀ c ∈ generateAllPossibleSlots t0 t1 d,
        countAvailableParticipants c ps
          ≤ countAvailableParticipants s.suggestedTime ps := by
  obtain ⟨b, tail, hr, htop⟩ := topCandidates_head ps d t0 t1 hcand
  have hempty : (topCandidates ps d t0 t1).isEmpty = false := by
    rw [htop]
    rfl
  obtain ⟨prompt, hprompt⟩ :=
    buildPrompt_ok ps (topCandidates ps d t0 t1) d hvalid
  rcases hfail with hout | hout | ⟨idx, r, imp, hout, hoob⟩
  · subst hout
    have htry : getAISuggestionTry ps d t0 t1 .unreachable
        = .error "APIConnectionError" := by
      simp only [getAISuggestionTry, hempty, Bool.false_eq_true, if_false,
        hprompt]
    obtain ⟨s, hs, hmem, hmax⟩ :=
      getAISuggestionCatch_spec ps d t0 t1 hvalid hcand
    refine ⟨s, ?_, hmem, hmax⟩
    rw [getAISuggestion, htry]
    exact hs
  · subst hout
    have htry : getAISuggestionTry ps d t0 t1 .badJSON
        = .error "SyntaxError: Unexpected token in JSON" := by
      simp only [getAISuggestionTry, hempty, Bool.false_eq_true, if_false,
        hprompt]
    obtain ⟨s, hs, hmem, hmax⟩ :=
      getAISuggestionCatch_spec ps d t0 t1 hvalid hcand
    refine ⟨s, ?_, hmem, hmax⟩
    rw [getAISuggestion, htry]
    exact hs
  · subst hout
    obtain ⟨impacts, himpacts⟩ := localImpacts_ok b.slot ps hvalid
    have hhead : (topCandidates ps d t0 t1).head? = some b := by
      rw [htop]
      rfl
    have htry : getAISuggestionTry ps d t0 t1 (.choice idx r imp)
        = .ok (some
          { suggestedTime := b.slot,
            reasoning := "This time has the most participants available.",
            participantImpact := impacts }) := by
      simp only [getAISuggestionTry, hempty, Bool.false_eq_true, if_false,
        hprompt, hoob, hhead, himpacts]
    obtain ⟨hbmem, hbcount, hbmax⟩ :=
      rankedCandidates_head_max ps d t0 t1 b tail hr
    refine ⟨{ suggestedTime := b.slot,
              reasoning := "This time has the most participants available.",
              participantImpact := impacts }, ?_, hbmem, ?_⟩
    · rw [getAISuggestion, htry]
    · intro c hc
      have := hbmax c hc
      rw [hbcount] at this
      exact this

/-- Witness for (amended) C2: one participant with a recognized timezone,
a one-day range with thirteen 60-minute candidates, and an unreachable
collaborator. -/
theorem getAISuggestion_failure_fallback_witness :
    (∀ p ∈ ([⟨"Alice", some 0, [⟨28800000, 32400000, none⟩]⟩] :
        List Participant), p.timezone ≠ none) ∧
    generateAllPossibleSlots 0 0 60 ≠ [] ∧
    (AIOutcome.unreachable = .unreachable ∨ AIOutcome.unreachable = .badJSON ∨
      ∃ idx r imp, AIOutcome.unreachable = .choice idx r imp ∧
        listGetInt (topCandidates
          [⟨"Alice", some 0, [⟨28800000, 32400000, none⟩]⟩] 60 0 0) idx
          = none) ∧
    ∃ s, getAISuggestion [⟨"Alice", some 0, [⟨28800000, 32400000, none⟩]⟩]
        60 0 0 .unreachable = .ok (some s) ∧
      s.suggestedTime ∈ generateAllPossibleSlots 0 0 60 ∧
      ∀ c ∈ generateAllPossibleSlots 0 0 60,
        countAvailableParticipants c
            [⟨"Alice", some 0, [⟨28800000, 32400000, none⟩]⟩]
          ≤ countAvailableParticipants s.suggestedTime
            [⟨"Alice", some 0, [⟨28800000, 32400000, none⟩]⟩] :=
  ⟨by decide, by decide, Or.inl rfl,
   getAISuggestion_failure_fallback _ 60 0 0 .unreachable (by decide)
     (by decide) (Or.inl rfl)⟩

/-! ## Claim C4 -/

theorem formatSlotInTimezone_none_error (slot : TimeSlot) (b : Bool) :
    formatSlotInTimezone slot none b
      = .error "RangeError: Invalid time zone specified" := by
  rw [formatSlotInTimezone]
  split
  · rfl
  · rfl

/-- C4 counterexample: `formatSlotInTimezone` passes the unvalidated
timezone straight to the `toLocale*String` calls with no `try`/`catch`, so
an unrecognized identifier's `RangeError` propagates to the caller instead
of degrading — while `getLocalHour` on the same instant does fall back to
the unzoned hour. -/
theorem formatSlotInTimezone_unrecognized_raises :
    formatSlotInTimezone ⟨28800000, 32400000, none⟩ none false
        = .error "RangeError: Invalid time zone specified" ∧
      getLocalHour 28800000 none = 8 :=
  ⟨rfl, by decide⟩

/-- C4 (amended: only the local-hour computation is total — it falls back
to the instant's unzoned hour on an unrecognized timezone — whereas
`formatSlotInTimezone` returns its labels without throwing only for
recognized timezones and propagates a `RangeError` for unrecognized
ones). -/
theorem timezone_fallback_behavior (slot : TimeSlot) (b : Bool) :
    getLocalHour slot.start none = getUTCHours slot.start ∧
    (∀ off : Int, getLocalHour slot.start (some off)
      = getUTCHours (slot.start + off * msPerMinute)) ∧
    (∀ off : Int, ∃ f, formatSlotInTimezone slot (some off) b = .ok f) ∧
    ∃ e, formatSlotInTimezone slot none b = .error e :=
  ⟨rfl, fun _ => rfl, fun off => formatSlotInTimezone_ok slot off b,
   ⟨_, formatSlotInTimezone_none_error slot b⟩⟩
